import Mathlib

/-!
Verification of the OpenBeta Parquet exporter (`export.py`) against its
design specification.

The network layer is modelled as an oracle (`Source`): each GraphQL request
the program can issue is a field of the oracle, returning the transport-level
result (`Resp`).  The Python functions of `export.py` are embedded as Lean
functions over this oracle.  Each embedded function also returns the list of
network `Call`s it issues, so that claims about how often a request is made
can be stated as facts about that trace.

Python truthiness is modelled explicitly where the code relies on it:
`not climb.get("metadata", {}).get("lat")` is true when the latitude is
missing (`none`) or equal to `0`, and an empty `pathTokens` list is falsy.
Coordinates are modelled as rationals (the claims never involve float
rounding).  HTTP status codes are natural numbers; real statuses are nonzero,
so matching on `Option FetchError` coincides with Python's `if error:` test.
-/

namespace ParquetExporter

/-- One leaf climbing record (`ClimbRecord`).  Fields not consulted by any
control-flow or normalization decision in `export.py` (grades, type flags,
safety, description, length) are carried opaquely by `uuid`/`name`;
`pathTokens` models the record's PartitionKey (a missing key in the JSON is
the empty list, matching Python falsiness), and `lat`/`lng` model
`metadata.lat` / `metadata.lng` (`none` = absent or null). -/
structure Climb where
  uuid : String
  name : String
  pathTokens : List String
  lat : Option Rat
  lng : Option Rat
  deriving DecidableEq

/-- One hierarchy node (`AreaRecord`) as returned by the areas query:
identifier, display name, its PartitionKey, optional coordinates, child
climbs. -/
structure Area where
  uuid : String
  area_name : String
  pathTokens : List String
  lat : Option Rat
  lng : Option Rat
  climbs : List Climb
  deriving DecidableEq

/-- Body of an HTTP-200-capable GraphQL response: either a payload with a
top-level `errors` field, or proper data. -/
inductive Body (α : Type) where
  | errors : Body α
  | data (a : α) : Body α
  deriving DecidableEq

/-- Transport-level result of one request: a timeout of the underlying
`requests.post`, or a completed HTTP exchange with a status code and body. -/
inductive Resp (α : Type) where
  | timeout : Resp α
  | http (status : Nat) (body : Body α) : Resp α
  deriving DecidableEq

/-- The network oracle: what the GraphQL endpoint answers to each of the
three queries `export.py` issues.  `countriesResp` answers `COUNTRIES_QUERY`
(pairs of areaName and uuid); `subregionsResp` answers `SUBREGIONS_QUERY`
for a country uuid (child area names); `areasResp` answers `AREAS_QUERY`
for a path-token list (leaf areas with their climbs). -/
structure Source where
  countriesResp : Resp (List (String × String))
  subregionsResp : String → Resp (List String)
  areasResp : List String → Resp (List Area)

/-- A network request issued by the program, for call-counting claims:
`leafFetch tokens` is one `AREAS_QUERY` request (the spec's
`fetchLeafRecords`), `childList uuid` is one `SUBREGIONS_QUERY` request
(the spec's `listChildKeys`). -/
inductive Call where
  | leafFetch (tokens : List String) : Call
  | childList (uuid : String) : Call
  deriving DecidableEq

/-- The error component of `fetch_region_climbs`'s return pair: an HTTP
status code (a transport timeout is reported as code 504 by the code), or
the string sentinel `"GraphQL Error"`. -/
inductive FetchError where
  | code (n : Nat) : FetchError
  | gqlError : FetchError
  deriving DecidableEq

/-- Python truthiness of an optional numeric field: `None` and `0` are
falsy. -/
def truthy : Option Rat → Bool
  | none => false
  | some x => decide (x ≠ 0)

/-- `LARGE_COUNTRIES = {"USA", "Canada"}` (export.py line 17): countries
known to be too large for a single query, always split. -/
def LARGE_COUNTRIES : List String := ["USA", "Canada"]

/-- The per-climb normalization step of `fetch_region_climbs`
(export.py lines 147-155): if the climb's `pathTokens` is falsy (missing or
empty) it inherits the area's; if the climb's `lat` is falsy (missing, null
or 0) and the area's `lat` is truthy, both `lat` and `lng` are copied from
the area. -/
def normalizeClimb (area : Area) (climb : Climb) : Climb :=
  let c := if climb.pathTokens.isEmpty then
    { climb with pathTokens := area.pathTokens } else climb
  if truthy c.lat then c
  else if truthy area.lat then { c with lat := area.lat, lng := area.lng }
  else c

/-- Flattening loop of `fetch_region_climbs` (lines 144-157): every climb of
every area, normalized against its containing area, in order. -/
def normalizeAreas (areas : List Area) : List Climb :=
  areas.flatMap (fun a => a.climbs.map (normalizeClimb a))

/-- `fetch_region_climbs` (export.py lines 122-159).  The Python pair
`(climbs, error)` always has exactly one component set, so it is embedded as
`Except`: a timeout yields error 504, a non-200 status yields that status, a
GraphQL `errors` payload yields the `"GraphQL Error"` sentinel, and success
yields the flattened normalized climbs.  The second component is the trace
of network calls issued. -/
def fetch_region_climbs (src : Source) (tokens : List String) :
    Except FetchError (List Climb) × List Call :=
  let result : Except FetchError (List Climb) :=
    match src.areasResp tokens with
    | .timeout => .error (.code 504)
    | .http status body =>
      if status ≠ 200 then .error (.code status)
      else match body with
        | .errors => .error .gqlError
        | .data areas => .ok (normalizeAreas areas)
  (result, [.leafFetch tokens])

/-- `fetch_subregions` (export.py lines 94-120): any failure (non-200,
GraphQL errors, timeout, other exception) returns the empty list; success
returns `[[country, child] for child in children]`. -/
def fetch_subregions (src : Source) (country : String) (uuid : String) :
    List (List String) × List Call :=
  let result : List (List String) :=
    match src.subregionsResp uuid with
    | .timeout => []
    | .http status body =>
      if status ≠ 200 then []
      else match body with
        | .errors => []
        | .data children => children.map (fun child => [country, child])
  (result, [.childList uuid])

/-- `fetch_country_via_subregions` (export.py lines 161-186): list the
sub-regions; if none, return no climbs; otherwise fetch each sub-region once
in order, skipping (`continue`) any whose fetch reports an error, and
accumulate climbs and their count. -/
def fetch_country_via_subregions (src : Source) (country : String)
    (uuid : String) : (List Climb × Nat) × List Call :=
  let sr := fetch_subregions src country uuid
  if sr.1.isEmpty then (([], 0), sr.2)
  else
    sr.1.foldl
      (fun acc sub =>
        let r := fetch_region_climbs src sub
        match r.1 with
        | .error _ => (acc.1, acc.2 ++ r.2)
        | .ok cs => ((acc.1.1 ++ cs, acc.1.2 + cs.length), acc.2 ++ r.2))
      (([], 0), sr.2)

/-- `error in [502, 504]` (export.py line 224): the controller's test for
the oversize signal. -/
def FetchError.isOversize : FetchError → Bool
  | .code n => n == 502 || n == 504
  | .gqlError => false

/-- Body of the per-country loop of `fetch_all_climbs` (export.py lines
211-234): a country in `LARGE_COUNTRIES` goes straight to sub-regions;
otherwise the whole country is attempted once, an error in `[502, 504]`
triggers the sub-region split, any other error contributes nothing, and
success contributes the fetched climbs. -/
def processCountry (src : Source) (country : String) (uuid : String) :
    List Climb × List Call :=
  if country ∈ LARGE_COUNTRIES then
    let r := fetch_country_via_subregions src country uuid
    (r.1.1, r.2)
  else
    let w := fetch_region_climbs src [country]
    match w.1 with
    | .error e =>
      if e.isOversize then
        let r := fetch_country_via_subregions src country uuid
        (r.1.1, w.2 ++ r.2)
      else ([], w.2)
    | .ok cs => (cs, w.2)

/-- `fetch_all_climbs` (export.py lines 188-237): root enumeration raises on
transport failure, a non-200 status or a GraphQL error payload (embedded as
`Except.error`); on success every country is processed in order by the loop
body and the climbs are concatenated. -/
def fetch_all_climbs (src : Source) :
    Except String (List Climb) × List Call :=
  match src.countriesResp with
  | .timeout => (.error "transport failure", [])
  | .http status body =>
    if status ≠ 200 then (.error "Countries query failed", [])
    else match body with
      | .errors => (.error "GraphQL errors", [])
      | .data countries =>
        let r := countries.foldl
          (fun acc cu =>
            let p := processCountry src cu.1 cu.2
            (acc.1 ++ p.1, acc.2 ++ p.2))
          (([] : List Climb), ([] : List Call))
        (.ok r.1, r.2)

/-- `filter_climbs` (export.py lines 239-247): with no configured regions
the input passes unchanged; otherwise a climb is kept when
`c.get("pathTokens")` is truthy (non-empty) and its first element is in the
region list. -/
def filter_climbs (climbs : List Climb) (regions : List String) :
    List Climb :=
  if regions.isEmpty then climbs
  else climbs.filter (fun c =>
    match c.pathTokens with
    | [] => false
    | r :: _ => decide (r ∈ regions))

/-- The spec's `FetchOutcome`: `Success(records)`, `Oversize`, or
`HardFailure(cause)`. -/
inductive FetchOutcome where
  | success (records : List Climb) : FetchOutcome
  | oversize : FetchOutcome
  | hardFailure (cause : FetchError) : FetchOutcome
  deriving DecidableEq

/-- How the controller (export.py lines 224-231) classifies the result of
one `fetch_region_climbs` attempt: no error is success, an error in
`[502, 504]` is the oversize signal (split branch), any other error is a
hard failure (warn-and-skip branch). -/
def classifyOutcome : Except FetchError (List Climb) → FetchOutcome
  | .ok cs => .success cs
  | .error e => if e.isOversize then .oversize else .hardFailure e

/-- Exit status of the process: `ok` = exit 0, `err` = `sys.exit(1)`. -/
inductive ExitStatus where
  | ok : ExitStatus
  | err : ExitStatus
  deriving DecidableEq

/-- `main` (export.py lines 321-355).  `exportResult` is the outcome of the
effectful `export_to_parquet` call (DuckDB / filesystem errors surface as a
raised exception, caught by `main`'s `except` and turned into exit 1).
Returns the exit status and whether the export stage was invoked. -/
def mainRun (src : Source) (regions : List String)
    (exportResult : Except String Unit) : ExitStatus × Bool :=
  match (fetch_all_climbs src).1 with
  | .error _ => (.err, false)
  | .ok climbs =>
    if climbs.isEmpty then (.err, false)
    else
      let filtered := filter_climbs climbs regions
      if filtered.isEmpty then (.err, false)
      else match exportResult with
        | .error _ => (.err, true)
        | .ok _ => (.ok, true)

/-- Outcome of the staging portion of `export_to_parquet`: whether an
exception propagated out of the stage, and whether the temporary JSON
staging file was removed. -/
structure StageResult where
  raised : Bool
  tmpRemoved : Bool
  deriving DecidableEq

/-- Control flow of `export_to_parquet`'s temp-file handling (export.py
lines 261-287), with fault injection at each fallible step.  The
`NamedTemporaryFile(delete=False)` is created, `json.dump` writes to it
still OUTSIDE the `try` (a failure there propagates with the file left on
disk), then the `try` block stats and loads the file with
`Path(tmp_path).unlink()` in the `finally`, and the schema/COPY steps run
after the file is already removed. -/
def export_staging (failDump failStat failLoad failCopy : Bool) :
    StageResult :=
  if failDump then { raised := true, tmpRemoved := false }
  else if failStat then { raised := true, tmpRemoved := true }
  else if failLoad then { raised := true, tmpRemoved := true }
  else if failCopy then { raised := true, tmpRemoved := true }
  else { raised := false, tmpRemoved := true }

/-- The records one sub-region attempt contributes to the accumulator: its
climbs on success, nothing on any error (the loop's `continue`). -/
def regionResult (src : Source) (sub : List String) : List Climb :=
  match (fetch_region_climbs src sub).1 with
  | .ok cs => cs
  | .error _ => []

/-! Concrete synthetic data, used by the witnesses: one country, "France",
whose whole-country query times out and which splits into two sub-regions
that both fetch successfully. -/

def franceChildren : List String := ["Alps", "Jura"]

def climbA : Climb :=
  { uuid := "id-a", name := "Route A",
    pathTokens := ["France", "Alps", "Crag"], lat := some 44, lng := some 6 }

def climbB : Climb :=
  { uuid := "id-b", name := "Route B", pathTokens := [],
    lat := none, lng := none }

def climbZero : Climb :=
  { uuid := "id-z", name := "Zero Route",
    pathTokens := ["France", "Alps", "Crag"], lat := some 0, lng := some 9 }

def areaAlps : Area :=
  { uuid := "area-alps", area_name := "Crag",
    pathTokens := ["France", "Alps", "Crag"],
    lat := some 45, lng := some (-122), climbs := [climbA] }

def areaJura : Area :=
  { uuid := "area-jura", area_name := "Bloc",
    pathTokens := ["France", "Jura", "Bloc"],
    lat := some 46, lng := some 5, climbs := [climbB] }

def srcW : Source where
  countriesResp := .http 200 (.data [("France", "uuid-france")])
  subregionsResp := fun uuid =>
    if uuid = "uuid-france" then .http 200 (.data franceChildren)
    else .timeout
  areasResp := fun tokens =>
    if tokens = ["France"] then .timeout
    else if tokens = ["France", "Alps"] then .http 200 (.data [areaAlps])
    else if tokens = ["France", "Jura"] then .http 200 (.data [areaJura])
    else .http 200 (.data [])

/-- The per-subregion area oracle of the C3 witness. -/
def areasOf (c : String) : List Area :=
  if c = "Alps" then [areaAlps] else if c = "Jura" then [areaJura] else []

def climbUSA : Climb :=
  { uuid := "id-us", name := "US Route", pathTokens := ["USA", "CA"],
    lat := none, lng := none }

def climbFR : Climb :=
  { uuid := "id-fr", name := "FR Route", pathTokens := ["France", "Alps"],
    lat := none, lng := none }

def climbNoKey : Climb :=
  { uuid := "id-nk", name := "Keyless", pathTokens := [],
    lat := none, lng := none }

theorem fcvs_foldl_spec (src : Source) (subs : List (List String))
    (acc : (List Climb × Nat) × List Call) :
    subs.foldl
      (fun acc sub =>
        let r := fetch_region_climbs src sub
        match r.1 with
        | .error _ => (acc.1, acc.2 ++ r.2)
        | .ok cs => ((acc.1.1 ++ cs, acc.1.2 + cs.length), acc.2 ++ r.2))
      acc =
    ((acc.1.1 ++ subs.flatMap (regionResult src),
      acc.1.2 + (subs.flatMap (regionResult src)).length),
      acc.2 ++ subs.map Call.leafFetch) := by
  induction subs generalizing acc with
  | nil => simp
  | cons sub rest ih =>
    simp only [List.foldl_cons, List.flatMap_cons, List.map_cons]
    rw [ih]
    unfold regionResult
    cases h : (fetch_region_climbs src sub).1 with
    | error e =>
      simp [h, fetch_region_climbs, List.append_assoc]
    | ok cs =>
      simp [h, fetch_region_climbs, List.append_assoc, Nat.add_assoc]

/-- Closed form of `fetch_country_via_subregions`: the gathered climbs are
the concatenation of each sub-region's contribution (in order), the count is
their number, and the trace is the one child-listing call followed by one
leaf fetch per sub-region. -/
theorem fetch_country_via_subregions_eq (src : Source) (country uuid : String) :
    fetch_country_via_subregions src country uuid =
    (((fetch_subregions src country uuid).1.flatMap (regionResult src),
      ((fetch_subregions src country uuid).1.flatMap (regionResult src)).length),
      Call.childList uuid ::
        (fetch_subregions src country uuid).1.map Call.leafFetch) := by
  have h2 : (fetch_subregions src country uuid).2 = [Call.childList uuid] := rfl
  unfold fetch_country_via_subregions
  by_cases h : (fetch_subregions src country uuid).1.isEmpty
  · rw [List.isEmpty_iff] at h
    simp [h, h2]
  · simp only [h, Bool.false_eq_true, if_false]
    rw [fcvs_foldl_spec]
    simp [h2]

theorem fetch_all_foldl_spec (src : Source)
    (countries : List (String × String)) (acc : List Climb × List Call) :
    countries.foldl
      (fun acc cu =>
        let p := processCountry src cu.1 cu.2
        (acc.1 ++ p.1, acc.2 ++ p.2))
      acc =
    (acc.1 ++ countries.flatMap (fun cu => (processCountry src cu.1 cu.2).1),
     acc.2 ++ countries.flatMap (fun cu => (processCountry src cu.1 cu.2).2)) := by
  induction countries generalizing acc with
  | nil => simp
  | cons cu rest ih =>
    simp only [List.foldl_cons, List.flatMap_cons]
    rw [ih]
    simp [List.append_assoc]

/-- Closed form of `fetch_all_climbs` on a successful root enumeration. -/
theorem fetch_all_climbs_eq (src : Source)
    (countries : List (String × String))
    (h : src.countriesResp = .http 200 (.data countries)) :
    fetch_all_climbs src =
    (.ok (countries.flatMap (fun cu => (processCountry src cu.1 cu.2).1)),
     countries.flatMap (fun cu => (processCountry src cu.1 cu.2).2)) := by
  unfold fetch_all_climbs
  rw [h]
  simp only [if_neg]
  rw [fetch_all_foldl_spec]
  simp

/-- On a successful child-enumeration response, `fetch_subregions` returns
the two-element keys `[country, child]` in order. -/
theorem fetch_subregions_ok (src : Source) (country uuid : String)
    (children : List String)
    (h : src.subregionsResp uuid = .http 200 (.data children)) :
    (fetch_subregions src country uuid).1 =
      children.map (fun child => [country, child]) := by
  unfold fetch_subregions
  rw [h]
  simp

/-- Every sub-region key produced by `fetch_subregions` has exactly two
path tokens (`[country, child]`), hence is never the whole-country key. -/
theorem fetch_subregions_mem_length (src : Source) (country uuid : String)
    (sub : List String) (h : sub ∈ (fetch_subregions src country uuid).1) :
    sub.length = 2 := by
  unfold fetch_subregions at h
  cases hr : src.subregionsResp uuid with
  | timeout => rw [hr] at h; simp at h
  | http status body =>
    rw [hr] at h
    by_cases hs : status = 200
    · subst hs
      cases body with
      | errors => simp at h
      | data children =>
        simp at h
        obtain ⟨child, _, hc⟩ := h
        rw [← hc]
        rfl
    · simp [hs] at h

/-- Two climbs with the same fields are equal. -/
theorem Climb.ext_fields {c₁ c₂ : Climb} (h1 : c₁.uuid = c₂.uuid)
    (h2 : c₁.name = c₂.name) (h3 : c₁.pathTokens = c₂.pathTokens)
    (h4 : c₁.lat = c₂.lat) (h5 : c₁.lng = c₂.lng) : c₁ = c₂ := by
  cases c₁
  cases c₂
  simp_all

theorem normalizeClimb_uuid (a : Area) (c : Climb) :
    (normalizeClimb a c).uuid = c.uuid := by
  unfold normalizeClimb
  by_cases hp : c.pathTokens.isEmpty <;> by_cases hl : truthy c.lat <;>
    by_cases ha : truthy a.lat <;> simp [hp, hl, ha]

theorem normalizeClimb_name (a : Area) (c : Climb) :
    (normalizeClimb a c).name = c.name := by
  unfold normalizeClimb
  by_cases hp : c.pathTokens.isEmpty <;> by_cases hl : truthy c.lat <;>
    by_cases ha : truthy a.lat <;> simp [hp, hl, ha]

theorem normalizeClimb_pathTokens (a : Area) (c : Climb) :
    (normalizeClimb a c).pathTokens =
      if c.pathTokens.isEmpty then a.pathTokens else c.pathTokens := by
  unfold normalizeClimb
  by_cases hp : c.pathTokens.isEmpty <;> by_cases hl : truthy c.lat <;>
    by_cases ha : truthy a.lat <;> simp [hp, hl, ha]

theorem normalizeClimb_lat (a : Area) (c : Climb) :
    (normalizeClimb a c).lat =
      if truthy c.lat then c.lat
      else if truthy a.lat then a.lat else c.lat := by
  unfold normalizeClimb
  by_cases hp : c.pathTokens.isEmpty <;> by_cases hl : truthy c.lat <;>
    by_cases ha : truthy a.lat <;> simp [hp, hl, ha]

theorem normalizeClimb_lng (a : Area) (c : Climb) :
    (normalizeClimb a c).lng =
      if truthy c.lat then c.lng
      else if truthy a.lat then a.lng else c.lng := by
  unfold normalizeClimb
  by_cases hp : c.pathTokens.isEmpty <;> by_cases hl : truthy c.lat <;>
    by_cases ha : truthy a.lat <;> simp [hp, hl, ha]

/-- C2: for every top-level key in the static known-large set
(`LARGE_COUNTRIES`), the controller never issues the whole-country
`fetchLeafRecords` call for that key: no `leafFetch [country]` request
appears in the calls it makes. -/
theorem large_country_skips_whole_fetch (src : Source) (country uuid : String)
    (h : country ∈ LARGE_COUNTRIES) :
    Call.leafFetch [country] ∉ (processCountry src country uuid).2 := by
  unfold processCountry
  rw [if_pos h]
  rw [fetch_country_via_subregions_eq]
  simp only [List.mem_cons, List.mem_map]
  rintro (habs | ⟨sub, hsub, habs⟩)
  · exact Call.noConfusion habs
  · have hlen : sub.length = 2 :=
      fetch_subregions_mem_length src country uuid sub hsub
    have hsc : sub = [country] := by
      injection habs
    rw [hsc] at hlen
    simp at hlen

theorem large_country_skips_whole_fetch_witness :
    Call.leafFetch ["USA"] ∉ (processCountry srcW "USA" "uuid-usa").2 :=
  large_country_skips_whole_fetch srcW "USA" "uuid-usa" (by decide)

/-- C4: after normalization, a record lacking a PartitionKey carries its
containing area's PartitionKey; a record lacking latitude whose containing
area has a (truthy) latitude carries exactly the area's latitude and
longitude; a record that already has its own coordinates keeps them
unchanged; a record with neither its own nor an inheritable coordinate
keeps its (absent) coordinates; and no record is dropped: the normalized
output has exactly one record per input climb. -/
theorem normalization_inherits_missing_fields (a : Area) (c : Climb) :
    (c.pathTokens = [] → (normalizeClimb a c).pathTokens = a.pathTokens) ∧
    (c.lat = none → truthy a.lat = true →
      (normalizeClimb a c).lat = a.lat ∧ (normalizeClimb a c).lng = a.lng) ∧
    (truthy c.lat = true →
      (normalizeClimb a c).lat = c.lat ∧ (normalizeClimb a c).lng = c.lng) ∧
    (truthy c.lat = false → truthy a.lat = false →
      (normalizeClimb a c).lat = c.lat ∧ (normalizeClimb a c).lng = c.lng) ∧
    (∀ areas : List Area, (normalizeAreas areas).length =
      (areas.map (fun ar => ar.climbs.length)).sum) := by
  refine ⟨?_, ?_, ?_, ?_, ?_⟩
  · intro hp
    simp [normalizeClimb_pathTokens, hp]
  · intro hla hta
    have hf : truthy c.lat = false := by rw [hla]; rfl
    simp [normalizeClimb_lat, normalizeClimb_lng, hf, hta]
  · intro hla
    simp [normalizeClimb_lat, normalizeClimb_lng, hla]
  · intro hla hta
    simp [normalizeClimb_lat, normalizeClimb_lng, hla, hta]
  · intro areas
    simp [normalizeAreas, List.length_flatMap, Function.comp_def]

theorem normalization_inherits_missing_fields_witness :
    (normalizeClimb areaAlps climbB).pathTokens = areaAlps.pathTokens ∧
    (normalizeClimb areaAlps climbB).lat = some 45 ∧
    (normalizeClimb areaAlps climbB).lng = some (-122) := by
  have h := normalization_inherits_missing_fields areaAlps climbB
  exact ⟨h.1 rfl, (h.2.1 rfl (by decide)).1, (h.2.1 rfl (by decide)).2⟩

/-- C5: the normalization step is idempotent, both per climb (re-applying
the inheritance step against the same containing area changes nothing) and
per record set (re-normalizing areas whose climbs are already normalized
yields the same flattened output). -/
theorem normalizer_idempotent :
    (∀ (a : Area) (c : Climb),
      normalizeClimb a (normalizeClimb a c) = normalizeClimb a c) ∧
    (∀ areas : List Area,
      normalizeAreas (areas.map (fun ar =>
        { ar with climbs := ar.climbs.map (normalizeClimb ar) })) =
      normalizeAreas areas) := by
  have hclimb : ∀ (a : Area) (c : Climb),
      normalizeClimb a (normalizeClimb a c) = normalizeClimb a c := by
    intro a c
    apply Climb.ext_fields
    · rw [normalizeClimb_uuid]
    · rw [normalizeClimb_name]
    · rw [normalizeClimb_pathTokens, normalizeClimb_pathTokens]
      by_cases hp : c.pathTokens.isEmpty <;> simp [hp]
    · simp only [normalizeClimb_lat]
      by_cases hl : truthy c.lat <;> by_cases ha : truthy a.lat <;>
        simp [hl, ha]
    · simp only [normalizeClimb_lng, normalizeClimb_lat]
      by_cases hl : truthy c.lat <;> by_cases ha : truthy a.lat <;>
        simp [hl, ha]
  refine ⟨hclimb, ?_⟩
  intro areas
  have harea : ∀ ar : Area, ∀ l : List Climb,
      normalizeClimb { ar with climbs := l } = normalizeClimb ar := by
    intro ar l
    funext c
    unfold normalizeClimb
    rfl
  unfold normalizeAreas
  induction areas with
  | nil => rfl
  | cons ar rest ih =>
    simp only [List.map_cons, List.flatMap_cons, ih]
    rw [harea ar]
    rw [List.map_map]
    have hcomp : (normalizeClimb ar ∘ normalizeClimb ar) = normalizeClimb ar := by
      funext c
      exact hclimb ar c
    rw [hcomp]

/-- C6: with a non-empty region set the filter keeps a record iff its
PartitionKey is non-empty and its first element is in the region set; with
an empty region set the input passes unchanged. -/
theorem filter_climbs_spec (climbs : List Climb) (regions : List String) :
    (regions = [] → filter_climbs climbs regions = climbs) ∧
    (regions ≠ [] → ∀ c, c ∈ filter_climbs climbs regions ↔
      c ∈ climbs ∧ ∃ r rest, c.pathTokens = r :: rest ∧ r ∈ regions) := by
  constructor
  · intro h
    simp [filter_climbs, h]
  · intro h c
    unfold filter_climbs
    rw [if_neg (by simpa [List.isEmpty_iff] using h)]
    rw [List.mem_filter]
    constructor
    · rintro ⟨hc, hp⟩
      refine ⟨hc, ?_⟩
      cases hpt : c.pathTokens with
      | nil => rw [hpt] at hp; exact absurd hp (by simp)
      | cons r rest =>
        rw [hpt] at hp
        simp only [decide_eq_true_eq] at hp
        exact ⟨r, rest, rfl, hp⟩
    · rintro ⟨hc, r, rest, hpt, hr⟩
      refine ⟨hc, ?_⟩
      rw [hpt]
      simpa using hr

theorem filter_climbs_spec_witness :
    filter_climbs [climbUSA, climbFR, climbNoKey] ["USA"] = [climbUSA] ∧
    (climbUSA ∈ filter_climbs [climbUSA, climbFR, climbNoKey] ["USA"] ↔
      climbUSA ∈ [climbUSA, climbFR, climbNoKey] ∧
      ∃ r rest, climbUSA.pathTokens = r :: rest ∧ r ∈ ["USA"]) :=
  ⟨by decide,
   (filter_climbs_spec [climbUSA, climbFR, climbNoKey] ["USA"]).2
     (by decide) climbUSA⟩

/-- C9: evaluation of the staging control flow of `export_to_parquet` at the
failing input.  When `json.dump` raises while writing the staging file (it
is still outside the `try`/`finally`), the temporary file is NOT removed —
refuting removal "on any exit path, including exceptions raised while
writing"; on every other path (stat, load, copy failure, or success) the
`finally` removes it. -/
theorem staging_file_survives_write_failure :
    (export_staging true false false false).raised = true ∧
    (export_staging true false false false).tmpRemoved = false ∧
    ∀ fs fl fc, (export_staging false fs fl fc).tmpRemoved = true := by
  refine ⟨rfl, rfl, ?_⟩
  intro fs fl fc
  cases fs <;> cases fl <;> cases fc <;> rfl

/-- C10: the Normalizer decides "lacking" by Python truthiness: a record
whose own latitude is exactly 0 is treated as missing and has BOTH its
coordinates overwritten with the containing area's (when the area's
latitude is truthy); a record with an empty PartitionKey list inherits the
area's; and longitude alone is never consulted — a record with a truthy
latitude keeps its latitude and its (possibly absent) longitude
untouched. -/
theorem truthiness_normalization (a : Area) (c : Climb) :
    (c.lat = some 0 → truthy a.lat = true →
      (normalizeClimb a c).lat = a.lat ∧ (normalizeClimb a c).lng = a.lng) ∧
    (truthy c.lat = true →
      (normalizeClimb a c).lat = c.lat ∧ (normalizeClimb a c).lng = c.lng) ∧
    (c.pathTokens = [] → (normalizeClimb a c).pathTokens = a.pathTokens) := by
  refine ⟨?_, ?_, ?_⟩
  · intro hla hta
    have hf : truthy c.lat = false := by rw [hla]; simp [truthy]
    simp [normalizeClimb_lat, normalizeClimb_lng, hf, hta]
  · intro hla
    simp [normalizeClimb_lat, normalizeClimb_lng, hla]
  · intro hp
    simp [normalizeClimb_pathTokens, hp]

theorem truthiness_normalization_witness :
    (normalizeClimb areaAlps climbZero).lat = some 45 ∧
    (normalizeClimb areaAlps climbZero).lng = some (-122) := by
  have h := (truthiness_normalization areaAlps climbZero).1 rfl (by decide)
  exact h

/-- C1: for a top-level key outside the static large set, when the
whole-country attempt is classified Oversize and the enumeration of its
children succeeds (the children all fetching successfully), the controller
issues exactly one `listChildKeys` call for that key, exactly one
`fetchLeafRecords` call per (distinct) child with the two-element key
`[country, child]`, and issues the whole-country `fetchLeafRecords` exactly
once — the initial attempt, never re-attempted. -/
theorem oversize_country_splits_once (src : Source) (country uuid : String)
    (children : List String)
    (hlarge : country ∉ LARGE_COUNTRIES)
    (hover : classifyOutcome (fetch_region_climbs src [country]).1 = .oversize)
    (hchildren : src.subregionsResp uuid = .http 200 (.data children))
    (hnodup : children.Nodup)
    (hok : ∀ c ∈ children, ∃ cs,
      (fetch_region_climbs src [country, c]).1 = .ok cs) :
    ((processCountry src country uuid).2.count (Call.childList uuid) = 1) ∧
    (∀ c ∈ children,
      (processCountry src country uuid).2.count
        (Call.leafFetch [country, c]) = 1) ∧
    ((processCountry src country uuid).2.count (Call.leafFetch [country]) = 1) := by
  have htrace : (processCountry src country uuid).2 =
      Call.leafFetch [country] :: Call.childList uuid ::
        children.map (fun child => Call.leafFetch [country, child]) := by
    cases hw : (fetch_region_climbs src [country]).1 with
    | ok cs =>
      rw [hw] at hover
      exact absurd hover (by simp [classifyOutcome])
    | error e =>
      rw [hw] at hover
      simp only [classifyOutcome] at hover
      by_cases he : e.isOversize
      · unfold processCountry
        rw [if_neg hlarge]
        simp only [hw, he, if_true]
        rw [fetch_country_via_subregions_eq,
          fetch_subregions_ok src country uuid children hchildren]
        simp [fetch_region_climbs, List.map_map, Function.comp_def]
      · rw [if_neg he] at hover
        exact absurd hover (by simp)
  rw [htrace]
  have hinj : Function.Injective
      (fun child => Call.leafFetch [country, child]) := by
    intro x y hxy
    simp only [Call.leafFetch.injEq, List.cons.injEq] at hxy
    exact hxy.2.1
  refine ⟨?_, ?_, ?_⟩
  · rw [List.count_cons_of_ne (by simp), List.count_cons_self,
      List.count_eq_zero.mpr (by simp)]
  · intro c hc
    rw [List.count_cons_of_ne (by simp), List.count_cons_of_ne (by simp)]
    rw [List.count_map_of_injective children _ hinj c]
    exact List.count_eq_one_of_mem hnodup hc
  · rw [List.count_cons_self, List.count_cons_of_ne (by simp),
      List.count_eq_zero.mpr (by simp)]

theorem oversize_country_splits_once_witness :
    ((processCountry srcW "France" "uuid-france").2.count
      (Call.childList "uuid-france") = 1) ∧
    (∀ c ∈ franceChildren,
      (processCountry srcW "France" "uuid-france").2.count
        (Call.leafFetch ["France", c]) = 1) ∧
    ((processCountry srcW "France" "uuid-france").2.count
      (Call.leafFetch ["France"]) = 1) :=
  oversize_country_splits_once srcW "France" "uuid-france" franceChildren
    (by decide) rfl rfl (by decide)
    (by
      intro c hc
      simp only [franceChildren, List.mem_cons, List.not_mem_nil,
        or_false] at hc
      rcases hc with rfl | rfl
      · exact ⟨_, rfl⟩
      · exact ⟨_, rfl⟩)

/-- C3: if a country's sub-regions partition its leaf areas (the areas a
single unbounded whole-country query would return are, up to order, the
disjoint union of the areas of the children), and every per-subregion fetch
succeeds, then the records the controller gathers across the sub-regions
are a permutation of the records that single unbounded query would have
produced — no record lost, none duplicated. -/
theorem subregion_partition_preserves_records (src : Source)
    (country uuid : String) (children : List String)
    (A : String → List Area) (W : List Area)
    (hchildren : src.subregionsResp uuid = .http 200 (.data children))
    (hok : ∀ c ∈ children,
      src.areasResp [country, c] = .http 200 (.data (A c)))
    (hpart : W.Perm (children.flatMap A)) :
    ((fetch_country_via_subregions src country uuid).1.1).Perm
      (normalizeAreas W) := by
  rw [fetch_country_via_subregions_eq,
    fetch_subregions_ok src country uuid children hchildren]
  have hgather : (children.map (fun child => [country, child])).flatMap
      (regionResult src) =
      children.flatMap (fun c => normalizeAreas (A c)) := by
    rw [List.flatMap_map]
    apply List.flatMap_congr
    intro c hc
    unfold regionResult fetch_region_climbs
    rw [hok c hc]
    simp
  rw [hgather]
  have hassoc : children.flatMap (fun c => normalizeAreas (A c)) =
      normalizeAreas (children.flatMap A) := by
    unfold normalizeAreas
    rw [List.flatMap_assoc]
  rw [hassoc]
  exact (hpart.flatMap_right
    (fun a => a.climbs.map (normalizeClimb a))).symm

theorem subregion_partition_preserves_records_witness :
    ((fetch_country_via_subregions srcW "France" "uuid-france").1.1).Perm
      (normalizeAreas [areaJura, areaAlps]) :=
  subregion_partition_preserves_records srcW "France" "uuid-france"
    franceChildren areasOf [areaJura, areaAlps] rfl
    (by
      intro c hc
      simp only [franceChildren, List.mem_cons, List.not_mem_nil,
        or_false] at hc
      rcases hc with rfl | rfl
      · rfl
      · rfl)
    (by decide)

/-- C7: one `fetchLeafRecords` attempt is classified Oversize exactly when
the transport timed out or the response carried status 502 or 504; any
other non-success status or a GraphQL-level error payload is a HardFailure
with that cause.  A partition's failure is isolated: each sub-region
contributes exactly its own successful records (a failing one contributes
zero) and, at the top level, a hard-failing country contributes zero
records while every country in the enumeration is still processed. -/
theorem fetch_outcome_classification (src : Source) (tokens : List String) :
    (classifyOutcome (fetch_region_climbs src tokens).1 = .oversize ↔
      src.areasResp tokens = .timeout ∨
      (∃ body, src.areasResp tokens = .http 502 body) ∨
      (∃ body, src.areasResp tokens = .http 504 body)) ∧
    (∀ status body, src.areasResp tokens = .http status body →
      status ≠ 200 → status ≠ 502 → status ≠ 504 →
      classifyOutcome (fetch_region_climbs src tokens).1 =
        .hardFailure (.code status)) ∧
    (src.areasResp tokens = .http 200 .errors →
      classifyOutcome (fetch_region_climbs src tokens).1 =
        .hardFailure .gqlError) ∧
    (∀ country uuid,
      (fetch_country_via_subregions src country uuid).1.1 =
        (fetch_subregions src country uuid).1.flatMap (regionResult src)) ∧
    (∀ country uuid, country ∉ LARGE_COUNTRIES → ∀ e,
      classifyOutcome (fetch_region_climbs src [country]).1 =
        .hardFailure e →
      (processCountry src country uuid).1 = []) ∧
    (∀ countries, src.countriesResp = .http 200 (.data countries) →
      (fetch_all_climbs src).1 =
        .ok (countries.flatMap
          (fun cu => (processCountry src cu.1 cu.2).1))) := by
  refine ⟨?_, ?_, ?_, ?_, ?_, ?_⟩
  · cases h : src.areasResp tokens with
    | timeout =>
      simp [fetch_region_climbs, classifyOutcome, FetchError.isOversize, h]
    | http status body =>
      by_cases h2 : status = 200
      · subst h2
        cases body <;>
          simp [fetch_region_climbs, classifyOutcome, FetchError.isOversize, h]
      · by_cases h502 : status = 502
        · subst h502
          simp [fetch_region_climbs, classifyOutcome, FetchError.isOversize, h]
        · by_cases h504 : status = 504
          · subst h504
            simp [fetch_region_climbs, classifyOutcome,
              FetchError.isOversize, h]
          · simp [fetch_region_climbs, classifyOutcome,
              FetchError.isOversize, h, h2, h502, h504]
  · intro status body h h200 h502 h504
    unfold fetch_region_climbs classifyOutcome
    rw [h]
    simp [h200, FetchError.isOversize, h502, h504]
  · intro h
    unfold fetch_region_climbs classifyOutcome
    rw [h]
    simp [FetchError.isOversize]
  · intro country uuid
    rw [fetch_country_via_subregions_eq]
  · intro country uuid hlarge e hfail
    cases hw : (fetch_region_climbs src [country]).1 with
    | ok cs =>
      rw [hw] at hfail
      exact absurd hfail (by simp [classifyOutcome])
    | error e0 =>
      rw [hw] at hfail
      simp only [classifyOutcome] at hfail
      by_cases he : e0.isOversize
      · rw [if_pos he] at hfail
        exact absurd hfail (by simp)
      · unfold processCountry
        rw [if_neg hlarge]
        simp [hw, he]
  · exact fun countries h => by rw [fetch_all_climbs_eq src countries h]

theorem fetch_outcome_classification_witness :
    classifyOutcome (fetch_region_climbs srcW ["France"]).1 =
      FetchOutcome.oversize :=
  ((fetch_outcome_classification srcW ["France"]).1).mpr (Or.inl rfl)

/-- C8 counterexample: a run in which root enumeration succeeds and the
accumulated and filtered record sets are non-empty still exits non-zero,
because the export stage itself raises — refuting "exits non-zero only if
root enumeration fails or the final accumulated/filtered record set is
empty". -/
theorem export_failure_exits_nonzero :
    (mainRun srcW [] (.error "DuckDB failure")).1 = ExitStatus.err ∧
    (∃ cs, (fetch_all_climbs srcW).1 = .ok cs ∧ cs ≠ [] ∧
      filter_climbs cs [] ≠ []) := by
  constructor
  · rfl
  · refine ⟨_, rfl, ?_, ?_⟩
    · decide
    · decide

/-- C8 amended: the run exits non-zero only if root enumeration fails, the
accumulated record set is empty, the filtered record set is empty, or the
export stage itself fails; and whenever the filtered set is empty the run
reports failure without invoking the export stage. -/
theorem run_failure_conditions (src : Source) (regions : List String)
    (exportResult : Except String Unit) :
    ((mainRun src regions exportResult).1 = .err →
      ((∃ msg, (fetch_all_climbs src).1 = .error msg) ∨
       (∃ cs, (fetch_all_climbs src).1 = .ok cs ∧ cs = []) ∨
       (∃ cs, (fetch_all_climbs src).1 = .ok cs ∧
         filter_climbs cs regions = []) ∨
       (∃ msg, exportResult = .error msg))) ∧
    (∀ cs, (fetch_all_climbs src).1 = .ok cs →
      filter_climbs cs regions = [] →
      mainRun src regions exportResult = (.err, false)) := by
  constructor
  · intro herr
    unfold mainRun at herr
    cases hf : (fetch_all_climbs src).1 with
    | error msg => exact Or.inl ⟨msg, rfl⟩
    | ok cs =>
      rw [hf] at herr
      by_cases hemp : cs.isEmpty
      · rw [List.isEmpty_iff] at hemp
        exact Or.inr (Or.inl ⟨cs, rfl, hemp⟩)
      · simp only [hemp, Bool.false_eq_true, if_false] at herr
        by_cases hfil : (filter_climbs cs regions).isEmpty
        · rw [List.isEmpty_iff] at hfil
          exact Or.inr (Or.inr (Or.inl ⟨cs, rfl, hfil⟩))
        · simp only [hfil, Bool.false_eq_true, if_false] at herr
          cases hexp : exportResult with
          | error msg => exact Or.inr (Or.inr (Or.inr ⟨msg, rfl⟩))
          | ok u =>
            rw [hexp] at herr
            exact absurd herr (by simp)
  · intro cs hf hfil
    unfold mainRun
    rw [hf]
    by_cases hemp : cs.isEmpty
    · simp [hemp]
    · simp only [hemp, Bool.false_eq_true, if_false]
      rw [hfil]
      simp

theorem run_failure_conditions_witness :
    mainRun srcW ["Nowhere"] (.ok ()) = (ExitStatus.err, false) :=
  (run_failure_conditions srcW ["Nowhere"] (.ok ())).2 _ rfl (by decide)

end ParquetExporter
